import Mathlib

/-!
Verification of the prompt-builder component (`src/prompt_builder.rs`).

The filesystem is modelled as a tree of nodes (`FsTree`): a file node carries
the result of `fs::read_to_string` on it (content, or a read-error message),
and a directory node carries the result of `fs::read_dir` (an ordered entry
list, or `some err` when the directory cannot be read).  A path (`FsPath`) is
its list of components, matching Rust `PathBuf`, whose equality and
`starts_with`/`strip_prefix` operate componentwise.

`PromptState`/`PromptBuilder` operations are translated one-for-one from the
Rust source; operations that mutate `&mut self` and may fail return the
result together with the (possibly partially mutated) state.
-/

namespace PromptBuilderSpec

/-- A filesystem path as its list of components (Rust `PathBuf`). -/
abbrev FsPath := List String

/-- A filesystem node.  `file c` holds what `fs::read_to_string` yields there;
`dir readErr es` is a directory whose `fs::read_dir` fails with `e` when
`readErr = some e` and otherwise lists `es` in iteration order. -/
inductive FsTree where
  | file (content : Except String String)
  | dir (readErr : Option String) (entries : List (String × FsTree))

/-- Walk a path down a filesystem tree (names in a real directory are
distinct, so the first match is the match). -/
def lookupTree : FsTree → FsPath → Option FsTree
  | t, [] => some t
  | .file _, _ :: _ => none
  | .dir _ es, name :: rest => lookupEntries es name rest
where
  lookupEntries : List (String × FsTree) → String → FsPath → Option FsTree
  | [], _, _ => none
  | (n, t) :: es, name, rest =>
    if n = name then lookupTree t rest else lookupEntries es name rest

/-- Rust `Path::exists`. -/
def pathExists (fs : FsTree) (p : FsPath) : Bool :=
  (lookupTree fs p).isSome

/-- Rust `Path::is_file`. -/
def isFile (fs : FsTree) (p : FsPath) : Bool :=
  match lookupTree fs p with
  | some (.file _) => true
  | _ => false

/-- Rust `Path::is_dir`. -/
def isDir (fs : FsTree) (p : FsPath) : Bool :=
  match lookupTree fs p with
  | some (.dir _ _) => true
  | _ => false

/-- Rust `fs::read_to_string`. -/
def readToString (fs : FsTree) (p : FsPath) : Except String String :=
  match lookupTree fs p with
  | some (.file c) => c
  | some (.dir _ _) => .error "Is a directory (os error 21)"
  | none => .error "No such file or directory (os error 2)"

/-- Rendering a path as a display string (`Path::display` / `to_string_lossy`
modulo the platform separator). -/
def joinPath : List String → String
  | [] => ""
  | [n] => n
  | n :: rest => n ++ "/" ++ joinPath rest

/-- `FileReference`: { path, display_name, order } (prompt_builder.rs:5-10). -/
structure FileReference where
  path : FsPath
  display_name : String
  order : Nat
deriving Repr, DecidableEq

/-- `PromptState` (prompt_builder.rs:22-31). -/
structure PromptState where
  file_contexts : List FileReference
  user_instructions : Option String
  system_prompts : List String
  next_order : Nat
deriving Repr, DecidableEq

/-- `PromptState::default()` / `PromptBuilder::new()`. -/
def PromptState.new : PromptState :=
  { file_contexts := [], user_instructions := none, system_prompts := [], next_order := 0 }

/-- `path.file_name()` with the `unwrap_or_else(|| path.display().to_string())`
fallback (prompt_builder.rs:56-58): the final component, unless there is none
(the root) or it is `..`. -/
def fileNameOrDisplay (path : FsPath) : String :=
  match path.getLast? with
  | some n => if n = ".." then joinPath path else n
  | none => joinPath path

/-- `PromptBuilder::add_file` (prompt_builder.rs:45-68).  On error the state
is unchanged (nothing was pushed before either early return). -/
def addFile (fs : FsTree) (path : FsPath) (s : PromptState) : Except String PromptState :=
  if s.file_contexts.any (fun f => f.path = path) then
    .error "File already in prompt"
  else if ¬ pathExists fs path then
    .error "File does not exist"
  else
    .ok { s with
          file_contexts :=
            s.file_contexts ++ [⟨path, fileNameOrDisplay path, s.next_order⟩],
          next_order := s.next_order + 1 }

/-- `PromptBuilder::add_directory_recursive` (prompt_builder.rs:82-112), split
over the node found at `dirPath`.  `walkDir` performs the `fs::read_dir` of
one call; `walkEntries` is its `for entry in entries` loop.  The mutation of
`&mut self` and the `count` out-parameter are threaded explicitly, and kept
even when an error propagates (Rust's `?` aborts the walk but not the
mutations already made). -/
def walkDir (dirPath : FsPath) : FsTree → PromptState → Nat →
    Except String Unit × PromptState × Nat
  | .file _, s, count =>
    (.error "Failed to read directory: Not a directory (os error 20)", s, count)
  | .dir (some e) _, s, count =>
    (.error ("Failed to read directory: " ++ e), s, count)
  | .dir none es, s, count => walkEntries dirPath es s count
where
  walkEntries (dirPath : FsPath) :
      List (String × FsTree) → PromptState → Nat →
      Except String Unit × PromptState × Nat
  | [], s, count => (.ok (), s, count)
  | (name, child) :: rest, s, count =>
    let path := dirPath ++ [name]
    match child with
    | .file _ =>
      if s.file_contexts.any (fun f => f.path = path) then
        walkEntries dirPath rest s count
      else
        let display_name :=
          joinPath (if dirPath.isPrefixOf path then path.drop dirPath.length else path)
        walkEntries dirPath rest
          { s with file_contexts :=
              s.file_contexts ++ [⟨path, display_name, s.next_order + count⟩] }
          (count + 1)
    | .dir readErr sub =>
      match walkDir path (.dir readErr sub) s count with
      | (.ok _, s', count') => walkEntries dirPath rest s' count'
      | (.error e, s', count') => (.error e, s', count')

/-- `PromptBuilder::add_directory` (prompt_builder.rs:70-80).  Returns the
result together with the new state: on success `next_order` advances by the
number of files added; on error the files pushed before the failure remain
but `next_order` is left as it was. -/
def addDirectory (fs : FsTree) (dirPath : FsPath) (s : PromptState) :
    Except String Nat × PromptState :=
  match lookupTree fs dirPath with
  | some (.dir readErr es) =>
    match walkDir dirPath (.dir readErr es) s 0 with
    | (.ok _, s', c) => (.ok c, { s' with next_order := s'.next_order + c })
    | (.error e, s', _) => (.error e, s')
  | _ => (.error "Path is not a directory", s)

/-- `PromptBuilder::remove_file` (prompt_builder.rs:114-116). -/
def removeFile (path : FsPath) (s : PromptState) : PromptState :=
  { s with file_contexts := s.file_contexts.filter (fun f => ¬ f.path = path) }

/-- `PromptBuilder::remove_directory` (prompt_builder.rs:118-120).
`Path::starts_with` is componentwise prefix, i.e. `List.isPrefixOf`. -/
def removeDirectory (dirPath : FsPath) (s : PromptState) : PromptState :=
  { s with file_contexts :=
      s.file_contexts.filter (fun f => ¬ dirPath.isPrefixOf f.path) }

/-- `PromptBuilder::clear` (prompt_builder.rs:122-125). -/
def clear (s : PromptState) : PromptState :=
  { s with file_contexts := [], next_order := 0 }

/-- `PromptBuilder::file_count` (prompt_builder.rs:131-133). -/
def fileCount (s : PromptState) : Nat :=
  s.file_contexts.length

/-- One entry's block of the assembled prompt: the delimiter header, then the
content or the inline read-error text (prompt_builder.rs:140-150). -/
def entryBlock (fs : FsTree) (f : FileReference) : String :=
  "=== File: " ++ f.display_name ++ " ===\n" ++
  (match readToString fs f.path with
   | .ok content => content ++ "\n\n"
   | .error e => "Error reading file: " ++ e ++ "\n\n")

/-- `PromptBuilder::build_prompt` (prompt_builder.rs:136-154): the `push_str`
loop over the entries, always ending in `Ok`. -/
def buildPrompt (fs : FsTree) (s : PromptState) : Except String String :=
  .ok (s.file_contexts.foldl (fun prompt f => prompt ++ entryBlock fs f) "")

/-- `PromptBuilder::readable_files_count` (prompt_builder.rs:174-178). -/
def readableFilesCount (fs : FsTree) (s : PromptState) : Nat :=
  (s.file_contexts.filter (fun f => pathExists fs f.path && isFile fs f.path)).length

/-- `PromptBuilder::unreadable_files_count` (prompt_builder.rs:181-185). -/
def unreadableFilesCount (fs : FsTree) (s : PromptState) : Nat :=
  (s.file_contexts.filter (fun f => !pathExists fs f.path || !isFile fs f.path)).length

/-! ### Sequences of mutating calls

A call against the store, with the state of the disk at the moment of the
call (the disk may change between calls). -/

inductive Op where
  | addFileOp (fs : FsTree) (path : FsPath)
  | addDirOp (fs : FsTree) (path : FsPath)
  | removeFileOp (path : FsPath)
  | removeDirOp (path : FsPath)

/-- The outcome of running a sequence of calls: the store's state, the `log`
of every order value ever assigned to an entry (in assignment sequence, kept
even after the entry is removed), and whether every `add_directory` call so
far returned `Ok`. -/
structure RunResult where
  state : PromptState
  log : List Nat
  dirsOk : Bool
deriving Repr, DecidableEq

/-- The order values the entries appended by one call received (every
mutating call only ever appends to or filters `file_contexts`). -/
def newOrders (old new : PromptState) : List Nat :=
  (new.file_contexts.drop old.file_contexts.length).map (fun f => f.order)

def isOkE : Except String Nat → Bool
  | .ok _ => true
  | .error _ => false

/-- One call against the store. -/
def step (r : RunResult) : Op → RunResult
  | .addFileOp fs p =>
    match addFile fs p r.state with
    | .ok s' => ⟨s', r.log ++ newOrders r.state s', r.dirsOk⟩
    | .error _ => r
  | .addDirOp fs p =>
    let out := addDirectory fs p r.state
    ⟨out.2, r.log ++ newOrders r.state out.2, r.dirsOk && isOkE out.1⟩
  | .removeFileOp p => { r with state := removeFile p r.state }
  | .removeDirOp p => { r with state := removeDirectory p r.state }

/-- Run a sequence of calls from a new store. -/
def run (ops : List Op) : RunResult :=
  ops.foldl step ⟨PromptState.new, [], true⟩

/-! ### Measures over a directory tree -/

/-- The paths of all files in the tree rooted at `dirPath`, in the order the
recursive walk visits them. -/
def treeFilePaths (dirPath : FsPath) : FsTree → List FsPath
  | .file _ => []
  | .dir _ es => entriesFilePaths dirPath es
where
  entriesFilePaths (dirPath : FsPath) : List (String × FsTree) → List FsPath
  | [] => []
  | (name, .file _) :: rest => (dirPath ++ [name]) :: entriesFilePaths dirPath rest
  | (name, .dir re sub) :: rest =>
    treeFilePaths (dirPath ++ [name]) (.dir re sub) ++ entriesFilePaths dirPath rest

/-- Every directory in the tree can be read. -/
def allReadable : FsTree → Bool
  | .file _ => true
  | .dir (some _) _ => false
  | .dir none es => allReadableEntries es
where
  allReadableEntries : List (String × FsTree) → Bool
  | [] => true
  | (_, t) :: rest => allReadable t && allReadableEntries rest

/-- The paths currently in the store, in insertion order. -/
def paths (s : PromptState) : List FsPath :=
  s.file_contexts.map (fun f => f.path)

/-- What one (possibly failing) `add_directory_recursive` call does to the
state: it appends some list `new` of entries, advances the local counter by
their number, gives them the consecutive order values starting at
`next_order + count`, gives each the display name of its final path
component, and preserves distinctness of paths. -/
def WalkOut (s : PromptState) (count : Nat)
    (out : Except String Unit × PromptState × Nat) : Prop :=
  ∃ new : List FileReference,
    out.2.1 = { s with file_contexts := s.file_contexts ++ new } ∧
    out.2.2 = count + new.length ∧
    new.map (fun f => f.order) = List.range' (s.next_order + count) new.length ∧
    (∀ f ∈ new, ∃ d n, f.path = d ++ [n] ∧ f.display_name = n) ∧
    ((paths s).Nodup → (paths s ++ new.map (fun f => f.path)).Nodup)

/-- The invariant maintained along every run: paths stay distinct, and — as
long as no `add_directory` call has failed — the assigned order values are
strictly increasing and all below the counter. -/
def Inv (r : RunResult) : Prop :=
  (paths r.state).Nodup ∧
  (r.dirsOk = true →
    List.Pairwise (· < ·) r.log ∧ ∀ o ∈ r.log, o < r.state.next_order)

/-- The display name the spec's words prescribe for a file added by
`add_directory(root)`: the path relative to `root`, falling back to the full
path when the relative computation fails.  (Modelled from the spec for the
refinement comparison in C3; the source computes the name relative to the
directory currently being walked instead.) -/
def specRelativeDisplay (root : FsPath) (p : FsPath) : String :=
  joinPath (if root.isPrefixOf p then p.drop root.length else p)

/-! ### Concrete inputs used by witnesses and counterexamples -/

/-- A disk where directory `d` holds file `a` and an unreadable
subdirectory `z`. -/
def fsHalfBad : FsTree :=
  .dir none [("d", .dir none
    [("a", .file (.ok "alpha")),
     ("z", .dir (some "Permission denied (os error 13)") [])])]

/-- A disk holding the single file `b`. -/
def fsOneB : FsTree := .dir none [("b", .file (.ok "B"))]

/-- A failed `add_directory` followed by an `add_file`: the order value 0 is
assigned twice. -/
def opsOrderReuse : List Op :=
  [.addDirOp fsHalfBad ["d"], .addFileOp fsOneB ["b"]]

/-- A disk where directory `r` holds a subdirectory `sub` holding file `f`. -/
def fsNested : FsTree :=
  .dir none [("r", .dir none [("sub", .dir none [("f", .file (.ok "F"))])])]

/-- A disk with a readable file `good` and a file `bad` whose read fails. -/
def fsMixed : FsTree :=
  .dir none
    [("good", .file (.ok "A")),
     ("bad", .file (.error "No such file or directory (os error 2)"))]

/-- A store referencing `good` (content `"A"`, added first) and `bad`. -/
def sMixed : PromptState :=
  { file_contexts := [⟨["good"], "good", 0⟩, ⟨["bad"], "bad", 1⟩],
    user_instructions := none, system_prompts := [], next_order := 2 }

/-- A disk with two readable files. -/
def fsAB : FsTree :=
  .dir none [("x", .file (.ok "A")), ("y", .file (.ok "B"))]

/-- A store holding exactly the two files of `fsAB`, `x` (content `"A"`)
added first. -/
def sAB : PromptState :=
  { file_contexts := [⟨["x"], "x", 0⟩, ⟨["y"], "y", 1⟩],
    user_instructions := none, system_prompts := [], next_order := 2 }

/-- A store holding `/foo/a` and the separate file `/foobar`. -/
def sFoobar : PromptState :=
  { file_contexts := [⟨["foo", "a"], "a", 0⟩, ⟨["foobar"], "foobar", 1⟩],
    user_instructions := none, system_prompts := [], next_order := 2 }

/-- Entries of a directory holding files `u`, `v` and subdirectory `w`
holding file `q`: 3 files, 1 subdirectory. -/
def entries3 : List (String × FsTree) :=
  [("u", .file (.ok "1")),
   ("v", .file (.ok "2")),
   ("w", .dir none [("q", .file (.ok "3"))])]

/-- A disk where directory `t` holds `entries3`. -/
def fsTree3 : FsTree := .dir none [("t", .dir none entries3)]

/-- The store produced by `add_directory` of `fsNested`'s directory `r`:
the nested file gets display name `f`, not `sub/f`. -/
def sNested : PromptState :=
  { file_contexts := [⟨["r", "sub", "f"], "f", 0⟩],
    user_instructions := none, system_prompts := [], next_order := 1 }

/-- Add a file, remove it, add it back: the re-added file gets the larger
order value 1. -/
def opsReAdd : List Op :=
  [.addFileOp fsOneB ["b"], .removeFileOp ["b"], .addFileOp fsOneB ["b"]]

/-! ### Helper lemmas -/

theorem isPrefixOf_append_right (l t : List String) : l.isPrefixOf (l ++ t) = true := by
  induction l with
  | nil => simp [List.isPrefixOf]
  | cons a as ih => simp [List.isPrefixOf, ih]

theorem length_filter_not_add (l : List α) (p q : α → Bool) (h : ∀ a, q a = !p a) :
    (l.filter p).length + (l.filter q).length = l.length := by
  induction l with
  | nil => rfl
  | cons a as ih =>
    by_cases hp : p a = true
    · simp [List.filter_cons, hp, h a, Nat.add_right_comm, ih]
    · simp only [Bool.not_eq_true] at hp
      simp only [List.filter_cons, hp, h a, Bool.not_false, if_pos, List.length_cons,
        List.length, if_neg, Bool.false_eq_true, not_false_eq_true, ite_false, ite_true]
      omega

/-! ### The claims -/

/-- C4: `remove_directory(D)` removes exactly the entries whose path lies
under `D` by componentwise (path-segment-aware) prefix comparison, leaves
every other entry untouched (in order), and is total; in particular an entry
at `/foobar` survives `remove_directory("/foo")`. -/
theorem removeDirectory_exact (d : FsPath) (s : PromptState) :
    (removeDirectory d s).file_contexts
        = s.file_contexts.filter (fun f => ¬ d.isPrefixOf f.path) ∧
    (∀ f, f ∈ (removeDirectory d s).file_contexts ↔
        f ∈ s.file_contexts ∧ ¬ d <+: f.path) ∧
    (removeDirectory ["foo"] sFoobar).file_contexts = [⟨["foobar"], "foobar", 1⟩] := by
  refine ⟨rfl, ?_, by decide⟩
  intro f
  simp [removeDirectory, List.mem_filter]

/-- C8: the readable/unreadable partition of the store's entries is exact:
`readable_files_count + unreadable_files_count = file_count`, for every store
state and every state of the disk. -/
theorem readable_add_unreadable_eq_count (fs : FsTree) (s : PromptState) :
    readableFilesCount fs s + unreadableFilesCount fs s = fileCount s := by
  refine length_filter_not_add _ _ _ ?_
  intro f
  cases hpe : pathExists fs f.path <;> cases hif : isFile fs f.path <;> simp [hpe, hif]

/-- C9: after `clear()` the store is empty and the order counter is reset, so
the next successful `add_file` assigns the order value 0. -/
theorem clear_resets (s : PromptState) :
    fileCount (clear s) = 0 ∧
    ∀ fs p s', addFile fs p (clear s) = .ok s' →
      s'.file_contexts.map (fun f => f.order) = [0] := by
  refine ⟨rfl, ?_⟩
  intro fs p s' h
  unfold addFile at h
  by_cases hex : pathExists fs p = true
  · simp [clear, hex] at h
    subst h
    rfl
  · simp [clear, hex] at h

/-- C5: `build_prompt` is total — it returns `Ok` of the concatenation of one
block per entry, in insertion order; a readable entry's block is its
delimiter header followed by its full content, and an unreadable entry's
block keeps the header but replaces the content with an inline error
message. -/
theorem buildPrompt_never_fails (fs : FsTree) (s : PromptState) :
    buildPrompt fs s = .ok (String.join (s.file_contexts.map (entryBlock fs))) ∧
    ∀ f ∈ s.file_contexts,
      (∀ c, readToString fs f.path = .ok c →
        entryBlock fs f = "=== File: " ++ f.display_name ++ " ===\n" ++ (c ++ "\n\n")) ∧
      (∀ e, readToString fs f.path = .error e →
        entryBlock fs f
          = "=== File: " ++ f.display_name ++ " ===\n"
              ++ ("Error reading file: " ++ e ++ "\n\n")) := by
  constructor
  · simp [buildPrompt, String.join, List.foldl_map]
  · intro f _
    constructor
    · intro c hc
      simp [entryBlock, hc]
    · intro e he
      simp [entryBlock, he]

/-- C7: on a store of exactly two files whose reads yield `a` and `b`, with
the `a` file inserted first, `build_prompt` returns the block of the first
file followed by the block of the second (each block being the delimiter
header followed by the content); in general it emits one block per entry in
insertion order. -/
theorem buildPrompt_two_files (fs : FsTree) (s : PromptState)
    (f1 f2 : FileReference) (a b : String)
    (h : s.file_contexts = [f1, f2])
    (ha : readToString fs f1.path = .ok a)
    (hb : readToString fs f2.path = .ok b) :
    buildPrompt fs s
        = .ok (String.join
            ["=== File: " ++ f1.display_name ++ " ===\n" ++ (a ++ "\n\n"),
             "=== File: " ++ f2.display_name ++ " ===\n" ++ (b ++ "\n\n")]) ∧
    ∀ s' : PromptState,
      buildPrompt fs s' = .ok (String.join (s'.file_contexts.map (entryBlock fs))) := by
  constructor
  · simp [buildPrompt, h, String.join, entryBlock, ha, hb]
  · intro s'
    simp [buildPrompt, String.join, List.foldl_map]

/-- Witness for C7 at a concrete two-file store. -/
theorem buildPrompt_two_files_witness :
    buildPrompt fsAB sAB
      = .ok (String.join
          ["=== File: " ++ "x" ++ " ===\n" ++ ("A" ++ "\n\n"),
           "=== File: " ++ "y" ++ " ===\n" ++ ("B" ++ "\n\n")]) :=
  (buildPrompt_two_files fsAB sAB ⟨["x"], "x", 0⟩ ⟨["y"], "y", 1⟩ "A" "B" rfl rfl rfl).1

/-! ### The recursive walk: what one call does to the state -/

theorem joinPath_singleton (n : String) : joinPath [n] = n := rfl

theorem not_mem_paths_of_any_eq_false {s : PromptState} {p : FsPath}
    (h : ¬ (s.file_contexts.any fun f => decide (f.path = p)) = true) :
    p ∉ paths s := by
  simp only [List.any_eq_true, decide_eq_true_eq, not_exists, not_and] at h
  simp only [paths, List.mem_map, not_exists, not_and]
  intro f hf
  intro hp
  exact h f hf hp

theorem walkEntries_out (dirPath : FsPath) (es : List (String × FsTree))
    (s : PromptState) (count : Nat) :
    WalkOut s count (walkDir.walkEntries dirPath es s count) := by
  refine walkDir.walkEntries.induct
    (fun dirPath es s count => WalkOut s count (walkDir.walkEntries dirPath es s count))
    (fun dirPath node s count => WalkOut s count (walkDir dirPath node s count))
    ?_ ?_ ?_ ?_ ?_ ?_ ?_ ?_ dirPath es s count
  · -- walkDir on a file node: read_dir fails, nothing changes
    intro dirPath content s count
    refine ⟨[], ?_, ?_, ?_, ?_, ?_⟩ <;> simp [walkDir]
  · -- walkDir on an unreadable directory: read_dir fails, nothing changes
    intro dirPath e entries s count
    refine ⟨[], ?_, ?_, ?_, ?_, ?_⟩ <;> simp [walkDir]
  · -- walkDir on a readable directory defers to the entry loop
    intro dirPath es s count ih
    simpa [walkDir] using ih
  · -- empty entry list: nothing changes
    intro dirPath s count
    refine ⟨[], ?_, ?_, ?_, ?_, ?_⟩ <;> simp [walkDir.walkEntries]
  · -- a file already in the store is skipped
    intro dirPath name rest s count path content hdup ih
    simpa [walkDir.walkEntries, hdup] using ih
  · -- a new file is appended with order next_order + count
    intro dirPath name rest s count path content hdup display_name ih
    obtain ⟨new', h1, h2, h3, h4, h5⟩ := ih
    refine ⟨⟨path, display_name, s.next_order + count⟩ :: new', ?_, ?_, ?_, ?_, ?_⟩
    · rw [walkDir.walkEntries]
      simp only [hdup, if_neg, ite_false, Bool.false_eq_true, not_false_eq_true]
      rw [h1]
      simp [List.append_assoc]
    · rw [walkDir.walkEntries]
      simp only [hdup, Bool.false_eq_true, not_false_eq_true, ite_false]
      rw [h2]
      simp only [List.length_cons]
      omega
    · simp only [List.map_cons, List.length_cons, h3]
      rw [List.range'_succ]
      simp [Nat.add_assoc]
    · intro f hf
      rw [List.mem_cons] at hf
      rcases hf with rfl | hf
      · refine ⟨dirPath, name, rfl, ?_⟩
        show joinPath (if List.isPrefixOf dirPath (dirPath ++ [name]) = true
            then List.drop (List.length dirPath) (dirPath ++ [name])
            else dirPath ++ [name]) = name
        rw [isPrefixOf_append_right, if_pos rfl, List.drop_left]
        exact joinPath_singleton name
      · exact h4 f hf
    · intro hnd
      have hmem : path ∉ paths s := not_mem_paths_of_any_eq_false hdup
      have hnd1 : (paths s ++ [path]).Nodup := by
        simp [List.nodup_append, hnd, hmem]
      have := h5 (by simpa [paths] using hnd1)
      simp only [paths] at this ⊢
      simpa [List.append_assoc] using this
  · -- a subdirectory whose recursive walk succeeds, then the rest of the loop
    intro dirPath name rest s count path readErr sub a s' count' hrec ih2 ih1
    obtain ⟨new1, g1, g2, g3, g4, g5⟩ := ih2
    rw [hrec] at g1 g2
    dsimp only at g1 g2
    obtain ⟨new2, k1, k2, k3, k4, k5⟩ := ih1
    refine ⟨new1 ++ new2, ?_, ?_, ?_, ?_, ?_⟩
    · rw [walkDir.walkEntries]
      simp only [hrec]
      rw [k1, g1]
      simp [List.append_assoc]
    · rw [walkDir.walkEntries]
      simp only [hrec]
      rw [k2, g2]
      simp only [List.length_append]
      omega
    · have hno : s'.next_order = s.next_order := by rw [g1]
      rw [List.map_append, g3, k3, hno, g2]
      have : s.next_order + (count + new1.length) = s.next_order + count + new1.length := by
        omega
      rw [this, List.range'_append_1, List.length_append, Nat.add_comm new1.length]
    · intro f hf
      rcases List.mem_append.mp hf with hf | hf
      · exact g4 f hf
      · exact k4 f hf
    · intro hnd
      have hpaths' : paths s' = paths s ++ new1.map (fun f => f.path) := by
        rw [g1]; simp [paths]
      have h1 := g5 hnd
      have h2 := k5 (by rw [hpaths']; exact h1)
      rw [hpaths'] at h2
      simpa [List.append_assoc] using h2
  · -- a subdirectory whose recursive walk fails: the loop aborts there
    intro dirPath name rest s count path readErr sub e s' count' hrec ih2
    obtain ⟨new1, g1, g2, g3, g4, g5⟩ := ih2
    rw [hrec] at g1 g2
    dsimp only at g1 g2
    refine ⟨new1, ?_, ?_, g3, g4, g5⟩
    · rw [walkDir.walkEntries]
      simp only [hrec]
      exact g1
    · rw [walkDir.walkEntries]
      simp only [hrec]
      exact g2

theorem walkDir_out (dirPath : FsPath) (node : FsTree)
    (s : PromptState) (count : Nat) :
    WalkOut s count (walkDir dirPath node s count) := by
  cases node with
  | file content => refine ⟨[], ?_, ?_, ?_, ?_, ?_⟩ <;> simp [walkDir]
  | dir readErr es =>
    cases readErr with
    | some e => refine ⟨[], ?_, ?_, ?_, ?_, ?_⟩ <;> simp [walkDir]
    | none => simpa [walkDir] using walkEntries_out dirPath es s count

theorem addFile_ok {fs : FsTree} {p : FsPath} {s s' : PromptState}
    (h : addFile fs p s = .ok s') :
    p ∉ paths s ∧
    s'.file_contexts = s.file_contexts ++ [⟨p, fileNameOrDisplay p, s.next_order⟩] ∧
    s'.next_order = s.next_order + 1 ∧
    s'.user_instructions = s.user_instructions ∧
    s'.system_prompts = s.system_prompts := by
  unfold addFile at h
  by_cases h1 : (s.file_contexts.any fun f => decide (f.path = p)) = true
  · simp [h1] at h
  · by_cases h2 : pathExists fs p = true
    · simp only [h1, h2, if_neg, if_pos, not_true_eq_false, Bool.false_eq_true,
        not_false_eq_true, ite_true, ite_false, Except.ok.injEq] at h
      subst h
      exact ⟨not_mem_paths_of_any_eq_false h1, rfl, rfl, rfl, rfl⟩
    · simp [h1, h2] at h

/-- What one `add_directory` call does to the state, for every outcome: it
appends some list `new` of entries whose order values are the consecutive
values starting at the old `next_order`, each displayed by its final path
component; path-distinctness is preserved; `next_order` advances by
`new.length` exactly when the call succeeded, and a successful call returns
`new.length`. -/
theorem addDirectory_out (fs : FsTree) (p : FsPath) (s : PromptState) :
    ∃ new : List FileReference,
      (addDirectory fs p s).2.file_contexts = s.file_contexts ++ new ∧
      (addDirectory fs p s).2.user_instructions = s.user_instructions ∧
      (addDirectory fs p s).2.system_prompts = s.system_prompts ∧
      new.map (fun f => f.order) = List.range' s.next_order new.length ∧
      (∀ f ∈ new, ∃ d n, f.path = d ++ [n] ∧ f.display_name = n) ∧
      ((paths s).Nodup → (paths s ++ new.map (fun f => f.path)).Nodup) ∧
      ((addDirectory fs p s).2.next_order
        = if isOkE (addDirectory fs p s).1 then s.next_order + new.length
          else s.next_order) ∧
      (∀ c, (addDirectory fs p s).1 = .ok c → c = new.length) := by
  unfold addDirectory
  cases hl : lookupTree fs p with
  | none =>
    refine ⟨[], by simp, rfl, rfl, rfl, by simp, by simp [paths], by simp [isOkE], by simp⟩
  | some node =>
    cases node with
    | file c =>
      refine ⟨[], by simp, rfl, rfl, rfl, by simp, by simp [paths], by simp [isOkE], by simp⟩
    | dir readErr es =>
      obtain ⟨new, w1, w2, w3, w4, w5⟩ := walkDir_out p (.dir readErr es) s 0
      rcases hw : walkDir p (.dir readErr es) s 0 with ⟨res, s', c⟩
      rw [hw] at w1 w2
      dsimp only at w1 w2
      rw [Nat.add_zero] at w3
      cases res with
      | ok u =>
        refine ⟨new, ?_, ?_, ?_, w3, w4, w5, ?_, ?_⟩
        · simp only [hw]
          rw [w1]
        · simp only [hw]
          rw [w1]
        · simp only [hw]
          rw [w1]
        · simp only [hw, isOkE, if_pos, ite_true]
          rw [w1, w2]
          simp
        · intro c' hc'
          simp only [hw, Except.ok.injEq] at hc'
          rw [← hc', w2]
          simp
      | error e =>
        refine ⟨new, ?_, ?_, ?_, w3, w4, w5, ?_, ?_⟩
        · simp only [hw]
          rw [w1]
        · simp only [hw]
          rw [w1]
        · simp only [hw]
          rw [w1]
        · simp only [hw, isOkE]
          rw [w1]
          simp
        · intro c' hc'
          simp [hw] at hc'

theorem paths_filter_nodup {s : PromptState} (q : FileReference → Bool)
    (h : (paths s).Nodup) :
    (List.map (fun f => f.path) (s.file_contexts.filter q)).Nodup :=
  h.sublist ((List.filter_sublist s.file_contexts).map (fun f => f.path))

theorem step_inv (r : RunResult) (op : Op) (h : Inv r) : Inv (step r op) := by
  obtain ⟨hnd, hord⟩ := h
  cases op with
  | addFileOp fs p =>
    cases haf : addFile fs p r.state with
    | error e => simpa [step, haf] using ⟨hnd, hord⟩
    | ok s' =>
      obtain ⟨hnot, hctx, hno, _, _⟩ := addFile_ok haf
      have hnew : newOrders r.state s' = [r.state.next_order] := by
        rw [newOrders, hctx, List.drop_left]
        rfl
      suffices hs : Inv ⟨s', r.log ++ newOrders r.state s', r.dirsOk⟩ by
        simpa [step, haf] using hs
      constructor
      · show (paths s').Nodup
        rw [paths, hctx]
        simp only [List.map_append, List.map_cons, List.map_nil]
        rw [List.nodup_append]
        refine ⟨hnd, List.nodup_singleton _, ?_⟩
        intro a ha hmem
        rw [List.mem_singleton] at hmem
        subst hmem
        exact hnot ha
      · intro hok
        obtain ⟨hp, hb⟩ := hord hok
        constructor
        · rw [hnew, List.pairwise_append]
          refine ⟨hp, List.pairwise_singleton _ _, ?_⟩
          intro a ha b hb'
          rw [List.mem_singleton] at hb'
          subst hb'
          exact hb a ha
        · intro o ho
          rw [hnew, List.mem_append, List.mem_singleton] at ho
          rw [hno]
          rcases ho with ho | rfl
          · exact Nat.lt_succ_of_lt (hb o ho)
          · exact Nat.lt_succ_self _
  | addDirOp fs p =>
    obtain ⟨new, d1, d2, d3, d4, d5, d6, d7, d8⟩ := addDirectory_out fs p r.state
    have hnew : newOrders r.state (addDirectory fs p r.state).2 = new.map (fun f => f.order) := by
      rw [newOrders, d1, List.drop_left]
    constructor
    · show (paths (addDirectory fs p r.state).2).Nodup
      rw [paths, d1, List.map_append]
      exact d6 hnd
    · show (step r (.addDirOp fs p)).dirsOk = true → _
      simp only [step, Bool.and_eq_true]
      rintro ⟨hok, hres⟩
      obtain ⟨hp, hb⟩ := hord hok
      rw [hnew, d4]
      rw [d7, hres, if_pos rfl]
      constructor
      · rw [List.pairwise_append]
        refine ⟨hp, List.pairwise_lt_range' _ _, ?_⟩
        intro a ha b hbm
        rw [List.mem_range'_1] at hbm
        exact Nat.lt_of_lt_of_le (hb a ha) hbm.1
      · intro o ho
        rw [List.mem_append, List.mem_range'_1] at ho
        rcases ho with ho | ho
        · exact Nat.lt_of_lt_of_le (hb o ho) (Nat.le_add_right _ _)
        · exact ho.2
  | removeFileOp p =>
    refine ⟨paths_filter_nodup _ hnd, ?_⟩
    intro hok
    obtain ⟨hp, hb⟩ := hord hok
    exact ⟨hp, hb⟩
  | removeDirOp p =>
    refine ⟨paths_filter_nodup _ hnd, ?_⟩
    intro hok
    obtain ⟨hp, hb⟩ := hord hok
    exact ⟨hp, hb⟩

theorem run_inv (ops : List Op) : Inv (run ops) := by
  have init : Inv ⟨PromptState.new, [], true⟩ := by
    constructor
    · simp [paths, PromptState.new]
    · intro _
      simp
  rw [run]
  generalize hr : (⟨PromptState.new, [], true⟩ : RunResult) = r at init
  clear hr
  induction ops generalizing r with
  | nil => exact init
  | cons op rest ih => exact ih (step r op) (step_inv r op init)

/-- C1: after any sequence of `add_file` / `add_directory` / `remove_file` /
`remove_directory` calls starting from a new store (under arbitrary,
possibly changing disk states), the store never holds two entries with the
same path. -/
theorem no_duplicate_paths (ops : List Op) : (paths (run ops).state).Nodup :=
  (run_inv ops).1

/-- C2 as stated fails on the code: a failed `add_directory` leaves its
partially-added entries in the store without advancing `next_order`, after
which the next `add_file` reuses an already-assigned order value.  Running
`add_directory` over a directory with one file and one unreadable
subdirectory and then `add_file` assigns the order value 0 twice. -/
theorem order_reuse_counterexample :
    (run opsOrderReuse).log = [0, 0] ∧
    ¬ List.Pairwise (· < ·) (run opsOrderReuse).log := by
  constructor
  · rfl
  · rw [show (run opsOrderReuse).log = [0, 0] from rfl]
    decide

/-- C2 (amended): as long as every `add_directory` call in the sequence
returns `Ok`, the order values assigned across the store's lifetime (the
log of assignments, kept even after removals) are pairwise strictly
increasing in assignment sequence — so no order value is ever reused, and
adding back a removed file yields a strictly larger order value. -/
theorem orders_strictly_increasing (ops : List Op)
    (h : (run ops).dirsOk = true) :
    List.Pairwise (· < ·) (run ops).log :=
  ((run_inv ops).2 h).1

/-- Witness for the amended C2: add `b`, remove it, add it back; the log of
assigned orders is `[0, 1]`. -/
theorem orders_strictly_increasing_witness :
    (run opsReAdd).dirsOk = true ∧
    (run opsReAdd).log = [0, 1] ∧
    List.Pairwise (· < ·) (run opsReAdd).log :=
  ⟨rfl, rfl, orders_strictly_increasing opsReAdd rfl⟩

/-- C10: when `add_directory` fails because a directory in the walk cannot
be read, the files appended before the failure remain in the store — the
call is not atomic — while `next_order` keeps its old value. -/
theorem addDirectory_error_keeps_added_files (fs : FsTree) (p : FsPath)
    (s : PromptState) (e : String)
    (h : (addDirectory fs p s).1 = .error e) :
    (addDirectory fs p s).2.next_order = s.next_order ∧
    ∃ new, (addDirectory fs p s).2.file_contexts = s.file_contexts ++ new := by
  obtain ⟨new, d1, _, _, _, _, _, d7, _⟩ := addDirectory_out fs p s
  refine ⟨?_, new, d1⟩
  rw [d7, h]
  simp [isOkE]

/-- Witness for C10: on `fsHalfBad`, the walk adds `d/a` and then fails on
the unreadable `d/z`; the added file stays while `next_order` stays 0. -/
theorem addDirectory_error_keeps_added_files_witness :
    ((addDirectory fsHalfBad ["d"] PromptState.new).2.next_order
        = PromptState.new.next_order ∧
      ∃ new, (addDirectory fsHalfBad ["d"] PromptState.new).2.file_contexts
        = PromptState.new.file_contexts ++ new) ∧
    (addDirectory fsHalfBad ["d"] PromptState.new).2.file_contexts
      = [⟨["d", "a"], "a", 0⟩] :=
  ⟨addDirectory_error_keeps_added_files fsHalfBad ["d"] PromptState.new
      "Failed to read directory: Permission denied (os error 13)" rfl,
    rfl⟩

/-- C3 as stated fails on the code: `add_directory_recursive` strips the
directory currently being walked — not the root the call was given — so a
file in a nested subdirectory gets its bare file name, not its path relative
to root.  Adding directory `r` containing `sub/f` yields display name `f`,
where the spec's relative-to-root rule demands `sub/f`. -/
theorem display_name_not_relative_to_root :
    addDirectory fsNested ["r"] PromptState.new = (.ok 1, sNested) ∧
    specRelativeDisplay ["r"] ["r", "sub", "f"] = "sub/f" ∧
    ¬ ∀ f ∈ sNested.file_contexts,
        f.display_name = specRelativeDisplay ["r"] f.path := by
  refine ⟨rfl, rfl, ?_⟩
  intro h
  have := h ⟨["r", "sub", "f"], "f", 0⟩ (by simp [sNested])
  simp [specRelativeDisplay, joinPath] at this

/-- C3 (amended): every entry a (successful or failing) `add_directory` call
adds gets as display name the path relative to the directory being walked
when the file was found — its immediate parent — i.e. its final path
component.  For a file directly under the given root this equals the path
relative to root, but for nested files it does not. -/
theorem addDirectory_display_is_file_name (fs : FsTree) (root : FsPath)
    (s : PromptState) (res : Except String Nat) (s' : PromptState)
    (h : addDirectory fs root s = (res, s')) :
    ∀ f ∈ s'.file_contexts,
      f ∈ s.file_contexts ∨ ∃ d n, f.path = d ++ [n] ∧ f.display_name = n := by
  obtain ⟨new, d1, _, _, _, d5, _, _, _⟩ := addDirectory_out fs root s
  rw [h] at d1
  dsimp only at d1
  intro f hf
  rw [d1, List.mem_append] at hf
  rcases hf with hf | hf
  · exact Or.inl hf
  · exact Or.inr (d5 f hf)

/-- Witness for the amended C3: the nested file added from `fsNested` has
path `r/sub/f` and display name `f`, its final component. -/
theorem addDirectory_display_is_file_name_witness :
    (⟨["r", "sub", "f"], "f", 0⟩ : FileReference) ∈ PromptState.new.file_contexts ∨
    ∃ d n, (⟨["r", "sub", "f"], "f", 0⟩ : FileReference).path = d ++ [n] ∧
      (⟨["r", "sub", "f"], "f", 0⟩ : FileReference).display_name = n :=
  addDirectory_display_is_file_name fsNested ["r"] PromptState.new (.ok 1) sNested rfl
    ⟨["r", "sub", "f"], "f", 0⟩ (by simp [sNested])

theorem walkEntries_full (dirPath : FsPath) (es : List (String × FsTree))
    (s : PromptState) (count : Nat)
    (hr : allReadable.allReadableEntries es = true)
    (hnd : (treeFilePaths.entriesFilePaths dirPath es).Nodup)
    (hdis : ∀ q ∈ treeFilePaths.entriesFilePaths dirPath es, q ∉ paths s) :
    ∃ new : List FileReference,
      walkDir.walkEntries dirPath es s count
        = (.ok (), { s with file_contexts := s.file_contexts ++ new },
            count + new.length) ∧
      new.map (fun f => f.path) = treeFilePaths.entriesFilePaths dirPath es := by
  refine walkDir.walkEntries.induct
    (fun dirPath es s count =>
      allReadable.allReadableEntries es = true →
      (treeFilePaths.entriesFilePaths dirPath es).Nodup →
      (∀ q ∈ treeFilePaths.entriesFilePaths dirPath es, q ∉ paths s) →
      ∃ new : List FileReference,
        walkDir.walkEntries dirPath es s count
          = (.ok (), { s with file_contexts := s.file_contexts ++ new },
              count + new.length) ∧
        new.map (fun f => f.path) = treeFilePaths.entriesFilePaths dirPath es)
    (fun dirPath node s count =>
      ∀ re es0, node = FsTree.dir re es0 →
      allReadable node = true →
      (treeFilePaths dirPath node).Nodup →
      (∀ q ∈ treeFilePaths dirPath node, q ∉ paths s) →
      ∃ new : List FileReference,
        walkDir dirPath node s count
          = (.ok (), { s with file_contexts := s.file_contexts ++ new },
              count + new.length) ∧
        new.map (fun f => f.path) = treeFilePaths dirPath node)
    ?_ ?_ ?_ ?_ ?_ ?_ ?_ ?_ dirPath es s count hr hnd hdis
  · -- a file node is never a directory
    intro dirPath content s count re es0 heq
    cases heq
  · -- an unreadable directory is ruled out by the readability hypothesis
    intro dirPath e entries s count re es0 heq hr
    simp [allReadable] at hr
  · -- a readable directory defers to its entry list
    intro dirPath es s count ih re es0 heq hr hnd hdis
    simp only [allReadable] at hr
    simp only [treeFilePaths] at hnd hdis ⊢
    rw [walkDir]
    exact ih hr hnd hdis
  · -- empty entry list: nothing is added
    intro dirPath s count _ _ _
    refine ⟨[], ?_, rfl⟩
    rw [walkDir.walkEntries]
    simp
  · -- a duplicate would contradict the no-overlap hypothesis
    intro dirPath name rest s count path content hdup ih hr hnd hdis
    exfalso
    simp only [treeFilePaths.entriesFilePaths] at hdis
    refine hdis path (List.mem_cons_self _ _) ?_
    rw [List.any_eq_true] at hdup
    obtain ⟨f, hf, hfp⟩ := hdup
    rw [decide_eq_true_eq] at hfp
    exact List.mem_map.mpr ⟨f, hf, hfp⟩
  · -- a fresh file is pushed, then the rest of the entries
    intro dirPath name rest s count path content hdup display_name ih hr hnd hdis
    simp only [allReadable.allReadableEntries, allReadable, Bool.true_and] at hr
    simp only [treeFilePaths.entriesFilePaths] at hnd hdis ⊢
    rw [List.nodup_cons] at hnd
    obtain ⟨new', e1, e2⟩ := ih hr hnd.2 (by
      intro q hq
      show q ∉ paths { s with file_contexts :=
        s.file_contexts ++ [⟨path, display_name, s.next_order + count⟩] }
      simp only [paths, List.map_append, List.map_cons, List.map_nil, List.mem_append,
        List.mem_cons, List.not_mem_nil, or_false, not_or]
      refine ⟨hdis q (List.mem_cons_of_mem _ hq), ?_⟩
      intro hqp
      subst hqp
      exact hnd.1 hq)
    refine ⟨⟨path, display_name, s.next_order + count⟩ :: new', ?_, ?_⟩
    · rw [walkDir.walkEntries]
      simp only [hdup, Bool.false_eq_true, not_false_eq_true, ite_false, if_neg]
      rw [e1]
      dsimp only
      rw [List.append_assoc, List.singleton_append]
      have h2 : count + 1 + new'.length = count + (new'.length + 1) := by omega
      rw [h2, List.length_cons]
    · simp only [List.map_cons, e2]
  · -- a subdirectory whose walk succeeds, then the rest of the entries
    intro dirPath name rest s count path readErr sub a s' count' hrec ih2 ih1
    intro hr hnd hdis
    simp only [allReadable.allReadableEntries, Bool.and_eq_true] at hr
    simp only [treeFilePaths.entriesFilePaths] at hnd hdis ⊢
    rw [List.nodup_append] at hnd
    obtain ⟨new1, q1, q2⟩ := ih2 readErr sub rfl hr.1 hnd.1 (fun q hq =>
      hdis q (List.mem_append_left _ hq))
    have hts : ((Except.ok () : Except String Unit), s', count')
        = (.ok (), { s with file_contexts := s.file_contexts ++ new1 },
            count + new1.length) := by
      rw [show ((Except.ok () : Except String Unit), s', count')
          = (Except.ok a, s', count') from rfl, ← hrec, ← q1]
    have hs' : s' = { s with file_contexts := s.file_contexts ++ new1 } :=
      congrArg (fun t => t.2.1) hts
    have hc' : count' = count + new1.length :=
      congrArg (fun t => t.2.2) hts
    have hpaths' : paths s' = paths s ++ treeFilePaths (dirPath ++ [name]) (.dir readErr sub) := by
      rw [hs']
      simp only [paths, List.map_append]
      rw [q2]
    obtain ⟨new2, r1, r2⟩ := ih1 hr.2 hnd.2.1 (by
      intro q hq
      rw [hpaths', List.mem_append]
      push_neg
      refine ⟨hdis q (List.mem_append_right _ hq), ?_⟩
      intro hq1
      exact hnd.2.2 hq1 hq)
    refine ⟨new1 ++ new2, ?_, ?_⟩
    · rw [walkDir.walkEntries]
      simp only [hrec]
      rw [r1, hs', hc']
      dsimp only
      rw [List.append_assoc]
      have h2 : count + new1.length + new2.length = count + (new1 ++ new2).length := by
        rw [List.length_append]
        omega
      rw [h2]
    · rw [List.map_append, q2, r2]
  · -- a subdirectory whose walk fails cannot occur when all of it is readable
    intro dirPath name rest s count path readErr sub e s' count' hrec ih2
    intro hr hnd hdis
    simp only [allReadable.allReadableEntries, Bool.and_eq_true] at hr
    simp only [treeFilePaths.entriesFilePaths] at hnd hdis
    rw [List.nodup_append] at hnd
    obtain ⟨new1, q1, q2⟩ := ih2 readErr sub rfl hr.1 hnd.1 (fun q hq =>
      hdis q (List.mem_append_left _ hq))
    rw [q1] at hrec
    simp at hrec

/-- C6: on a directory tree all of whose directories are readable, whose
file paths are distinct, and none of whose files is already in the store,
`add_directory` succeeds, returns the number `N` of files in the tree
(regardless of how many subdirectories it has), and increases `file_count`
by exactly `N`. -/
theorem addDirectory_adds_all (fs : FsTree) (root : FsPath) (s : PromptState)
    (rerr : Option String) (es : List (String × FsTree))
    (hl : lookupTree fs root = some (.dir rerr es))
    (hr : allReadable (.dir rerr es) = true)
    (hnd : (treeFilePaths root (.dir rerr es)).Nodup)
    (hdis : ∀ q ∈ treeFilePaths root (.dir rerr es), q ∉ paths s) :
    ∃ s', addDirectory fs root s
        = (.ok ((treeFilePaths root (.dir rerr es)).length), s') ∧
      fileCount s' = fileCount s + (treeFilePaths root (.dir rerr es)).length := by
  cases rerr with
  | some e => simp [allReadable] at hr
  | none =>
    simp only [allReadable] at hr
    simp only [treeFilePaths] at hnd hdis ⊢
    obtain ⟨new, w1, w2⟩ := walkEntries_full root es s 0 hr hnd hdis
    have hwd : walkDir root (.dir none es) s 0
        = (.ok (), { s with file_contexts := s.file_contexts ++ new },
            0 + new.length) := by
      rw [walkDir]
      exact w1
    have hlen : (treeFilePaths.entriesFilePaths root es).length = new.length := by
      rw [← w2, List.length_map]
    refine Exists.intro { s with file_contexts := s.file_contexts ++ new, next_order := s.next_order + (0 + new.length) } ⟨?_, ?_⟩
    · unfold addDirectory
      simp only [hl, hwd]
      rw [hlen]
      simp
    · simp only [fileCount, List.length_append, hlen]

/-- Witness for C6 on a concrete tree with 3 files and 1 subdirectory. -/
theorem addDirectory_adds_all_witness :
    (∃ s', addDirectory fsTree3 ["t"] PromptState.new
        = (.ok ((treeFilePaths ["t"] (.dir none entries3)).length), s') ∧
      fileCount s' = fileCount PromptState.new
        + (treeFilePaths ["t"] (.dir none entries3)).length) ∧
    (treeFilePaths ["t"] (.dir none entries3)).length = 3 :=
  ⟨addDirectory_adds_all fsTree3 ["t"] PromptState.new none entries3 rfl (by decide)
      (by decide) (by decide),
    rfl⟩

end PromptBuilderSpec
